import Mathlib

/-!
Formal model of the delivery-scheduling core of kumomta.

The definitions below are a shallow embedding of
`crates/kumod/src/queue.rs` (retry backoff math, requeue behaviour) and
`crates/kumod/src/dest_site.rs` (TLS policy decision, connection-count
shaping, MX name factoring).

Modelling conventions:
* Rust `usize` arithmetic is modelled on `ℕ` with explicit saturation
  (`satPow`) and an explicit two's-complement cast `toI64` wherever the
  source writes `as i64`.
* `chrono::Duration` values are integer seconds (`ℤ`), but construction is
  fallible: `chrono`'s `Duration` is bounded by ±`i64::MAX` milliseconds,
  so `Duration::seconds(s)` panics unless `|s| ≤ i64::MAX / 1000`
  (`duration_seconds` returns `none` on the panic path).  Addition and
  subtraction of already-constructed durations stay exact: their second
  counts are bounded by the construction bound, so the field arithmetic
  cannot reach `i64` overflow.
* The `.sum::<i64>()` over per-attempt delays wraps on overflow; we model
  the release-build wrapping semantics (`wrapI64` per addition; a debug
  build would abort, which only moves the failure earlier).
* Functions that can panic return `Option`; `none` means the program
  aborts at that call.
* The `f32` arithmetic of `ideal_connection_count` is modelled over `ℝ`,
  except that the `connection_limit as f32` cast is modelled exactly
  (`natToF32`, round-to-nearest-even), because that rounding is observable
  in the connection cap.  The `queue_size as f32` cast is exact on every
  queue size appearing in the claims and is monotone in general, so it is
  left unmodelled.
* Rust's Unicode `to_lowercase` is modelled by the ASCII `Char.toLower`
  (all inputs of interest are ASCII hostnames).
-/

/-- Largest value of Rust's 64-bit `usize`. -/
def USIZE_MAX : ℕ := 2 ^ 64 - 1

/-- Rust `usize::saturating_pow`: the mathematical power clamped to `usize::MAX`. -/
def satPow (base expn : ℕ) : ℕ := min (base ^ expn) USIZE_MAX

/-- The Rust cast `as i64` applied to an unsigned value: reduce mod 2^64 and
reinterpret in two's complement. -/
def toI64 (n : ℕ) : ℤ :=
  if n % 2 ^ 64 < 2 ^ 63 then ((n % 2 ^ 64 : ℕ) : ℤ)
  else ((n % 2 ^ 64 : ℕ) : ℤ) - 2 ^ 64

/-- The largest number of whole seconds a `chrono::Duration` can hold:
`⌊i64::MAX / 1000⌋`, since the type is bounded by ±`i64::MAX` milliseconds. -/
def MAX_DURATION_SECS : ℕ := 9223372036854775

/-- `chrono::Duration::seconds(s)`: returns the duration when `s` is within
the type's bounds and panics (`none`) otherwise. -/
def duration_seconds (s : ℤ) : Option ℤ :=
  if -(MAX_DURATION_SECS : ℤ) ≤ s ∧ s ≤ (MAX_DURATION_SECS : ℤ) then some s else none

/-- Two's-complement wrap-around of an integer into the `i64` range, the
release-build behaviour of overflowing `i64` arithmetic. -/
def wrapI64 (z : ℤ) : ℤ := (z + 2 ^ 63) % 2 ^ 64 - 2 ^ 63

/-- `QueueConfig` from `crates/kumod/src/queue.rs`: base retry interval,
optional cap on the computed retry interval, and maximum queue age, all in
seconds, all `usize` in the source. -/
structure QueueConfig where
  retry_interval : ℕ
  max_retry_interval : Option ℕ
  max_age : ℕ

/-- The `usize` value computed inside `QueueConfig::delay_for_attempt`
before the `as i64` conversion:
`retry_interval.saturating_pow(1 + attempt)`, then `min` with
`max_retry_interval` when that is set. -/
def nat_delay (c : QueueConfig) (attempt : ℕ) : ℕ :=
  let delay := satPow c.retry_interval (1 + attempt)
  match c.max_retry_interval with
  | none => delay
  | some limit => min delay limit

/-- `QueueConfig::delay_for_attempt`: the `usize` value is cast `as i64`
and handed to `chrono::Duration::seconds`, which panics (`none`) when the
cast value exceeds the duration bounds. -/
def delay_for_attempt (c : QueueConfig) (attempt : ℕ) : Option ℤ :=
  duration_seconds (toI64 (nat_delay c attempt))

/-- `QueueConfig::get_max_age`: `Duration::seconds(self.max_age as i64)`,
panicking (`none`) when the cast value exceeds the duration bounds. -/
def get_max_age (c : QueueConfig) : Option ℤ := duration_seconds (toI64 c.max_age)

/-- The iterator chain `(1..num_attempts).map(delay_for_attempt).sum::<i64>()`:
left to right, each `delay_for_attempt` may panic (`none`), and each `i64`
addition wraps on overflow in release builds. -/
def sum_delays (c : QueueConfig) : List ℕ → ℤ → Option ℤ
  | [], acc => some acc
  | i :: rest, acc =>
    match delay_for_attempt c i with
    | none => none
    | some d => sum_delays c rest (wrapI64 (acc + d))

/-- `QueueConfig::compute_delay_based_on_age`: sum the per-attempt delays
for attempts `1..num_attempts` (wrapping `i64` sum), rebuild a duration
from the sum, expire when it has reached the configured max age, otherwise
report the remaining wait.  The outer `none` is a panic (in a summed
delay, in `Duration::seconds` of the sum, or in `get_max_age`); the inner
option is the function's own `Option<Duration>` result. -/
def compute_delay_based_on_age (c : QueueConfig) (num_attempts : ℕ) (age : ℤ) :
    Option (Option ℤ) :=
  match sum_delays c (List.range' 1 (num_attempts - 1)) 0 with
  | none => none
  | some s =>
    match duration_seconds s with
    | none => none
    | some overall_delay =>
      match get_max_age c with
      | none => none
      | some max_age =>
        if overall_delay ≥ max_age then some none
        else if overall_delay ≤ age then some (some 0)
        else some (some (overall_delay - age))

/-- The delay formula as the specification words it (claim C1):
`min(retry_interval^(1+n), max_retry_interval | ∞)`, as a natural number of
seconds. -/
def spec_min_delay (c : QueueConfig) (attempt : ℕ) : ℕ :=
  match c.max_retry_interval with
  | none => c.retry_interval ^ (1 + attempt)
  | some limit => min (c.retry_interval ^ (1 + attempt)) limit

/-- The age-based delay as the specification words it (claim C3):
`S = Σ delay_for_attempt(i), i ∈ 1..n` as an exact sum of the spec's
delay values, `None` when `S ≥ max_age`, else `Some (max 0 (S − age))`,
comparing against the configured `max_age` directly. -/
def spec_compute_delay (c : QueueConfig) (num_attempts : ℕ) (age : ℤ) : Option ℤ :=
  let s : ℤ :=
    ((((List.range' 1 (num_attempts - 1)).map (fun i => spec_min_delay c i)).sum : ℕ) : ℤ)
  if s ≥ (c.max_age : ℤ) then none else some (max 0 (s - age))

/-- The message attributes `Queue::requeue_message` reads: the attempt
counter and the message age (seconds since reception). -/
structure MsgState where
  num_attempts : ℕ
  age : ℤ

/-- Observable outcome of `Queue::requeue_message`:
`expired` = removed from spool and not re-inserted;
`delayed d` = `msg.delay_by(d)` then re-inserted;
`delayed_with_jitter s` = `msg.delay_with_jitter(s)` then re-inserted. -/
inductive RequeueAction where
  | expired : RequeueAction
  | delayed : ℤ → RequeueAction
  | delayed_with_jitter : ℕ → RequeueAction
deriving DecidableEq

/-- `Queue::requeue_message` from `crates/kumod/src/queue.rs`.  `jitter` is
the integer number of seconds obtained from the random draw
`(rand * 60) - 30` truncated `as i64` (range `[-30, 29]`).  A `none`
result is a panic inside `delay_for_attempt`, in `Duration::seconds` of
the jittered delay, or in `get_max_age`, each of which aborts before any
expiry or re-insertion; the `i64` addition `delay.num_seconds() + jitter`
is exact because both operands are bounded by the duration bounds. -/
def requeue_message (c : QueueConfig) (msg : MsgState) (increment_attempts : Bool)
    (jitter : ℤ) : Option RequeueAction :=
  if increment_attempts then
    let attempts := msg.num_attempts + 1
    match delay_for_attempt c attempts with
    | none => none
    | some d =>
      match duration_seconds (d + jitter) with
      | none => none
      | some delay =>
        match get_max_age c with
        | none => none
        | some max_age =>
          if delay + msg.age > max_age then some RequeueAction.expired
          else some (RequeueAction.delayed delay)
  else some (RequeueAction.delayed_with_jitter 60)

/-- The TLS policy enum from `crates/kumod/src/dest_site.rs`. -/
inductive Tls where
  | Opportunistic : Tls
  | OpportunisticInsecure : Tls
  | Required : Tls
  | RequiredInsecure : Tls
  | Disabled : Tls
deriving DecidableEq

/-- `Tls::allow_insecure`. -/
def Tls.allow_insecure : Tls → Bool
  | Tls.OpportunisticInsecure => true
  | Tls.RequiredInsecure => true
  | _ => false

/-- Outcome of the STARTTLS decision inside `Dispatcher::attempt_connection`:
fail the connection attempt, proceed without TLS, or issue STARTTLS with the
given `allow_insecure` flag. -/
inductive TlsDecision where
  | failConnection : TlsDecision
  | noTls : TlsDecision
  | startTls : Bool → TlsDecision
deriving DecidableEq

/-- The `match (enable_tls, has_tls)` in `Dispatcher::attempt_connection`,
where `has_tls` records whether the EHLO capabilities advertise STARTTLS. -/
def tls_decision (enable_tls : Tls) (has_tls : Bool) : TlsDecision :=
  match enable_tls, has_tls with
  | Tls.Required, false => TlsDecision.failConnection
  | Tls.RequiredInsecure, false => TlsDecision.failConnection
  | Tls.Disabled, _ => TlsDecision.noTls
  | Tls.Opportunistic, false => TlsDecision.noTls
  | Tls.OpportunisticInsecure, false => TlsDecision.noTls
  | Tls.Opportunistic, true => TlsDecision.startTls (Tls.allow_insecure Tls.Opportunistic)
  | Tls.OpportunisticInsecure, true =>
      TlsDecision.startTls (Tls.allow_insecure Tls.OpportunisticInsecure)
  | Tls.Required, true => TlsDecision.startTls (Tls.allow_insecure Tls.Required)
  | Tls.RequiredInsecure, true =>
      TlsDecision.startTls (Tls.allow_insecure Tls.RequiredInsecure)

/-- Floor base-2 logarithm by structural recursion on a fuel argument
(so that it reduces inside `decide`); `natLog2 n = ⌊log₂ n⌋` for `n ≥ 1`
since the fuel `n` always suffices. -/
def log2fuel : ℕ → ℕ → ℕ
  | 0, _ => 0
  | fuel + 1, n => if n ≤ 1 then 0 else log2fuel fuel (n / 2) + 1

/-- Floor base-2 logarithm (structural version of `Nat.log2`). -/
def natLog2 (n : ℕ) : ℕ := log2fuel n n

/-- The Rust cast `as f32` applied to an unsigned integer: round to the
nearest value on the 24-bit-significand grid, ties to even.  Values below
`2^24` are exact; overflow to infinity (at `2^128`) is unreachable from
`usize`. -/
def natToF32 (n : ℕ) : ℕ :=
  if n < 2 ^ 24 then n
  else
    let k := natLog2 n - 23
    let q := n / 2 ^ k
    let r := n % 2 ^ k
    let half := 2 ^ (k - 1)
    if r < half then q * 2 ^ k
    else if half < r then (q + 1) * 2 ^ k
    else (if q % 2 = 0 then q else q + 1) * 2 ^ k

/-- `ideal_connection_count` from `crates/kumod/src/dest_site.rs`:
`ceil((limit as f32) * (1 - exp(-1 * queue_size * 0.023)))`.  The
`connection_limit as f32` cast is modelled exactly by `natToF32` (its
rounding is observable in the cap); the exponential and products are over
`ℝ`; the `queue_size as f32` cast is exact for every queue size in the
claims and monotone in general, so it is left out; the final `as usize`
cast of the non-negative result is `Int.toNat` (its saturation at
`usize::MAX` can only lower the value further). -/
noncomputable def ideal_connection_count (queue_size : ℕ) (connection_limit : ℕ) : ℕ :=
  (⌈((natToF32 connection_limit : ℕ) : ℝ) *
    (1 - Real.exp (-1 * (queue_size : ℝ) * 0.023))⌉).toNat

/-- The worker count after `DestinationSite::maintain`: finished handles are
pruned (leaving `pruned` live workers) and new workers are spawned while the
count is below the ideal, so the result is the max of the two. -/
noncomputable def maintain_live_connections (pruned : ℕ) (queue_size limit : ℕ) : ℕ :=
  max pruned (ideal_connection_count queue_size limit)

/-- The padding label `"?"` used by `factor_names`. -/
def qmark : List Char := ['?']

/-- Rust `str::split('.')` on a character list: at a separator start a new
field, otherwise extend the current (first) field. -/
def splitOnChar (c : Char) : List Char → List (List Char)
  | [] => [[]]
  | x :: xs =>
    let r := splitOnChar c xs
    if x = c then [] :: r else (x :: r.headD []) :: r.tail

/-- Rust `Vec::join(sep)` on a list of character lists. -/
def joinSep (c : Char) : List (List Char) → List Char
  | [] => []
  | [x] => x
  | x :: y :: ys => x ++ c :: joinSep c (y :: ys)

/-- The nested `add_element` helper of `factor_names`: record `field` at
position `i`, keeping only distinct labels in first-seen order, appending a
fresh position when `i` is out of range. -/
def add_element (elements : List (List (List Char))) (field : List Char) (i : ℕ) :
    List (List (List Char)) :=
  match elements.get? i with
  | some ele => if field ∈ ele then elements else elements.set i (ele ++ [field])
  | none => elements ++ [[field]]

/-- The `for (i, field) in fields.iter().enumerate()` loop of `factor_names`,
starting at position `i`. -/
def add_fields (elements : List (List (List Char))) (fields : List (List Char)) (i : ℕ) :
    List (List (List Char)) :=
  match fields with
  | [] => elements
  | f :: rest => add_fields (add_element elements f i) rest (i + 1)

/-- The `for i in fields.len()..max_element_count` padding loop of
`factor_names`. -/
def pad_elements (elements : List (List (List Char))) (start maxc : ℕ) :
    List (List (List Char)) :=
  (List.range' start (maxc - start)).foldl (fun els i => add_element els qmark i) elements

/-- Rendering of one position of `factor_names`: drop the `"?"` padding
label, emit a single label bare, several as `(a|b|c)`, and suffix `?` when
padding was present. -/
def render_element (ele : List (List Char)) : List Char :=
  let rest := ele.filter (fun e => decide (e ≠ qmark))
  let item :=
    match rest with
    | [e] => e
    | es => '(' :: (joinSep '|' es ++ [')'])
  if qmark ∈ ele then item ++ ['?'] else item

/-- `factor_names` from `crates/kumod/src/dest_site.rs`: lowercase each
hostname, split on `.`, reverse, align right-to-left padding with `"?"`,
collect distinct labels per position, and render the alternation. -/
def factor_names (names : List String) : String :=
  let split_names := names.map
    (fun n => ((splitOnChar '.' n.data).map (fun f => f.map Char.toLower)).reverse)
  let max_element_count := split_names.foldl (fun m f => max m f.length) 0
  let elements := split_names.foldl
    (fun els fields => pad_elements (add_fields els fields 0) fields.length max_element_count)
    []
  let result := (elements.map render_element).reverse
  String.mk (joinSep '.' result)

/-- ASCII lowercasing of a whole string (the expected value in claim C10). -/
def strLower (s : String) : String := String.mk (s.data.map Char.toLower)

/-! ### Helper lemmas about the integer model -/

theorem toI64_of_lt {v : ℕ} (h : v < 2 ^ 63) : toI64 v = (v : ℤ) := by
  have h64 : v < 2 ^ 64 := lt_trans h (by norm_num)
  unfold toI64
  rw [Nat.mod_eq_of_lt h64, if_pos h]

theorem toI64_le_self (v : ℕ) : toI64 v ≤ (v : ℤ) := by
  unfold toI64
  split
  · exact_mod_cast Nat.mod_le v (2 ^ 64)
  · have : ((v % 2 ^ 64 : ℕ) : ℤ) < 2 ^ 64 := by
      exact_mod_cast Nat.mod_lt v (by norm_num)
    have h0 : (0 : ℤ) ≤ (v : ℤ) := Int.natCast_nonneg v
    linarith

theorem pow_le_pow_one_add (r n : ℕ) : r ^ (1 + n) ≤ r ^ (1 + (n + 1)) := by
  rcases Nat.eq_zero_or_pos r with hr | hr
  · subst hr
    simp [Nat.zero_pow]
  · exact Nat.pow_le_pow_right hr (by omega)

theorem nat_delay_mono (c : QueueConfig) (n : ℕ) : nat_delay c n ≤ nat_delay c (n + 1) := by
  unfold nat_delay satPow
  have hp := pow_le_pow_one_add c.retry_interval n
  cases c.max_retry_interval with
  | none => exact min_le_min hp le_rfl
  | some m => exact min_le_min (min_le_min hp le_rfl) le_rfl

theorem duration_seconds_of_le {s : ℤ} (h1 : -(MAX_DURATION_SECS : ℤ) ≤ s)
    (h2 : s ≤ (MAX_DURATION_SECS : ℤ)) : duration_seconds s = some s := by
  unfold duration_seconds
  rw [if_pos ⟨h1, h2⟩]

theorem wrapI64_of_bounds {z : ℤ} (h1 : -(2 ^ 63) ≤ z) (h2 : z < 2 ^ 63) :
    wrapI64 z = z := by
  unfold wrapI64
  rw [Int.emod_eq_of_lt (by linarith) (by linarith)]
  ring

theorem delay_for_attempt_of_le (c : QueueConfig) (i : ℕ)
    (h : nat_delay c i ≤ MAX_DURATION_SECS) :
    delay_for_attempt c i = some ((nat_delay c i : ℕ) : ℤ) := by
  have h63 : nat_delay c i < 2 ^ 63 :=
    lt_of_le_of_lt h (by norm_num [MAX_DURATION_SECS])
  rw [delay_for_attempt, toI64_of_lt h63]
  exact duration_seconds_of_le
    (le_trans (by norm_num) (Int.natCast_nonneg _)) (by exact_mod_cast h)

theorem nat_delay_eq_spec_of_lt (c : QueueConfig) (n : ℕ)
    (h : spec_min_delay c n < 2 ^ 63) : nat_delay c n = spec_min_delay c n := by
  cases hc : c.max_retry_interval with
  | none =>
    simp only [spec_min_delay, hc] at h
    simp only [nat_delay, satPow, spec_min_delay, hc, USIZE_MAX]
    omega
  | some m =>
    simp only [spec_min_delay, hc] at h
    simp only [nat_delay, satPow, spec_min_delay, hc, USIZE_MAX]
    omega

theorem spec_min_eq_nat_delay_of_le (c : QueueConfig) (n : ℕ)
    (h : nat_delay c n ≤ MAX_DURATION_SECS) : spec_min_delay c n = nat_delay c n := by
  simp only [MAX_DURATION_SECS] at h
  cases hc : c.max_retry_interval with
  | none =>
    simp only [nat_delay, satPow, hc, USIZE_MAX] at h
    simp only [nat_delay, satPow, spec_min_delay, hc, USIZE_MAX]
    omega
  | some m =>
    simp only [nat_delay, satPow, hc, USIZE_MAX] at h
    simp only [nat_delay, satPow, spec_min_delay, hc, USIZE_MAX]
    omega

theorem sum_delays_eval (c : QueueConfig) :
    ∀ l : List ℕ, (∀ i ∈ l, nat_delay c i ≤ MAX_DURATION_SECS) →
      ∀ acc : ℤ, 0 ≤ acc →
        acc + (((l.map (fun i => nat_delay c i)).sum : ℕ) : ℤ) < 2 ^ 63 →
        sum_delays c l acc = some (acc + (((l.map (fun i => nat_delay c i)).sum : ℕ) : ℤ)) := by
  intro l
  induction l with
  | nil =>
    intro _ acc _ _
    simp [sum_delays]
  | cons i rest ih =>
    intro hterms acc hacc hbound
    have hd := delay_for_attempt_of_le c i (hterms i (List.mem_cons_self i rest))
    have hsumc : ((i :: rest).map (fun j => nat_delay c j)).sum =
        nat_delay c i + (rest.map (fun j => nat_delay c j)).sum := by
      simp
    rw [hsumc] at hbound ⊢
    rw [Nat.cast_add] at hbound ⊢
    have hnd0 : (0 : ℤ) ≤ (nat_delay c i : ℤ) := Int.natCast_nonneg _
    have hrs0 : (0 : ℤ) ≤ (((rest.map (fun j => nat_delay c j)).sum : ℕ) : ℤ) :=
      Int.natCast_nonneg _
    rw [sum_delays, hd]
    show sum_delays c rest (wrapI64 (acc + (nat_delay c i : ℤ))) = _
    have hwrap : wrapI64 (acc + (nat_delay c i : ℤ)) = acc + (nat_delay c i : ℤ) :=
      wrapI64_of_bounds (by linarith) (by linarith)
    rw [hwrap]
    rw [ih (fun j hj => hterms j (List.mem_cons_of_mem i hj)) (acc + (nat_delay c i : ℤ))
      (by linarith) (by linarith)]
    ring_nf

theorem compute_delay_eval (c : QueueConfig) (n : ℕ) (age : ℤ)
    (hterms : ∀ i ∈ List.range' 1 (n - 1), nat_delay c i ≤ MAX_DURATION_SECS)
    (hsum : ((List.range' 1 (n - 1)).map (fun i => nat_delay c i)).sum ≤ MAX_DURATION_SECS)
    (hma : c.max_age ≤ MAX_DURATION_SECS) :
    compute_delay_based_on_age c n age =
      some (if ((((List.range' 1 (n - 1)).map (fun i => nat_delay c i)).sum : ℕ) : ℤ) ≥
              (c.max_age : ℤ) then none
            else if ((((List.range' 1 (n - 1)).map (fun i => nat_delay c i)).sum : ℕ) : ℤ) ≤ age
              then some 0
            else some (((((List.range' 1 (n - 1)).map
                (fun i => nat_delay c i)).sum : ℕ) : ℤ) - age)) := by
  have hS := sum_delays_eval c (List.range' 1 (n - 1)) hterms 0 le_rfl
    (by simp only [MAX_DURATION_SECS] at hsum; omega)
  have hdur : duration_seconds
      ((((List.range' 1 (n - 1)).map (fun i => nat_delay c i)).sum : ℕ) : ℤ) =
      some ((((List.range' 1 (n - 1)).map (fun i => nat_delay c i)).sum : ℕ) : ℤ) := by
    apply duration_seconds_of_le
    · exact le_trans (show -((MAX_DURATION_SECS : ℕ) : ℤ) ≤ 0 by norm_num) (by positivity)
    · simp only [MAX_DURATION_SECS] at hsum ⊢
      omega
  have hga : get_max_age c = some ((c.max_age : ℕ) : ℤ) := by
    rw [get_max_age, toI64_of_lt (lt_of_le_of_lt hma (by norm_num [MAX_DURATION_SECS]))]
    exact duration_seconds_of_le
      (le_trans (by norm_num) (Int.natCast_nonneg _)) (by exact_mod_cast hma)
  simp only [compute_delay_based_on_age, hS, zero_add, hdur, hga]
  split_ifs <;> rfl

/-! ### C1: the delay formula -/

/-- C1 (amended): whenever `min(retry_interval^(1+n), max_retry_interval | ∞)`
fits within chrono's duration bounds (≤ 9223372036854775 = ⌊i64::MAX/1000⌋
seconds), `delay_for_attempt` returns exactly that many seconds, and in
particular attempt 0 yields `retry_interval` seconds when under the cap;
between that bound and `2^63` the program panics in `Duration::seconds`
instead of returning the value; at `2^63` and beyond, the `as i64` cast
wraps, so saturated values come out negative rather than saturated. -/
theorem delay_for_attempt_eq_spec_min (c : QueueConfig) (n : ℕ) :
    (spec_min_delay c n ≤ MAX_DURATION_SECS →
      delay_for_attempt c n = some ((spec_min_delay c n : ℕ) : ℤ)) ∧
    (MAX_DURATION_SECS < spec_min_delay c n → spec_min_delay c n < 2 ^ 63 →
      delay_for_attempt c n = none) := by
  constructor
  · intro h
    have h63 : spec_min_delay c n < 2 ^ 63 :=
      lt_of_le_of_lt h (by norm_num [MAX_DURATION_SECS])
    have hnd := nat_delay_eq_spec_of_lt c n h63
    rw [← hnd]
    exact delay_for_attempt_of_le c n (by rw [hnd]; exact h)
  · intro h1 h2
    have hnd := nat_delay_eq_spec_of_lt c n h2
    rw [delay_for_attempt, hnd, toI64_of_lt h2]
    unfold duration_seconds
    rw [if_neg]
    intro hcon
    exact absurd (by exact_mod_cast hcon.2 : spec_min_delay c n ≤ MAX_DURATION_SECS)
      (Nat.not_le.mpr h1)

/-- C1 witness: with `retry_interval = 2`, no cap, the first retry
(attempt 0) is delayed `2 = 2^1` seconds. -/
theorem delay_for_attempt_eq_spec_min_witness :
    spec_min_delay ⟨2, none, 1024⟩ 0 ≤ MAX_DURATION_SECS ∧
      delay_for_attempt ⟨2, none, 1024⟩ 0 =
        some ((spec_min_delay ⟨2, none, 1024⟩ 0 : ℕ) : ℤ) :=
  ⟨by decide, (delay_for_attempt_eq_spec_min ⟨2, none, 1024⟩ 0).1 (by decide)⟩

/-- C1 counterexample: with the default config (`retry_interval = 72000`,
no cap), attempt 3 computes `72000^4`, which saturates to `usize::MAX` and
then wraps to `-1` under the `as i64` cast — the program returns a negative
delay of `-1` seconds, not the saturated value the claim states. -/
theorem delay_for_attempt_wraps_negative :
    delay_for_attempt ⟨72000, none, 604800⟩ 3 = some (-1) := by decide

/-! ### C2: backoff monotonicity -/

/-- C2 (amended): the retry delays are non-decreasing wherever the program
actually returns them, namely while the capped `usize` value stays within
chrono's duration bounds; beyond those bounds `Duration::seconds` panics,
and from `2^63` the `as i64` cast wraps the value negative. -/
theorem delay_for_attempt_mono (c : QueueConfig) (n : ℕ)
    (h : nat_delay c (n + 1) ≤ MAX_DURATION_SECS) :
    ∃ d d' : ℤ, delay_for_attempt c n = some d ∧
      delay_for_attempt c (n + 1) = some d' ∧ d ≤ d' := by
  have hmn := nat_delay_mono c n
  exact ⟨_, _, delay_for_attempt_of_le c n (le_trans hmn h),
    delay_for_attempt_of_le c (n + 1) h, by exact_mod_cast hmn⟩

/-- C2 witness: with `retry_interval = 2`, no cap, the delay for attempt 4
is at least the delay for attempt 3 (16 ≤ 32). -/
theorem delay_for_attempt_mono_witness :
    nat_delay ⟨2, none, 1024⟩ 4 ≤ MAX_DURATION_SECS ∧
      ∃ d d' : ℤ, delay_for_attempt ⟨2, none, 1024⟩ 3 = some d ∧
        delay_for_attempt ⟨2, none, 1024⟩ 4 = some d' ∧ d ≤ d' :=
  ⟨by decide, delay_for_attempt_mono ⟨2, none, 1024⟩ 3 (by decide)⟩

/-- C2 counterexample: with the default `retry_interval = 72000` and no cap
the program returns `72000^3` seconds for attempt 2 but `-1` seconds for
attempt 3 (both within chrono's bounds, so no panic intervenes): the
sequence of returned delays is not non-decreasing for every config. -/
theorem delay_for_attempt_not_mono :
    delay_for_attempt ⟨72000, none, 604800⟩ 2 = some 373248000000000 ∧
      delay_for_attempt ⟨72000, none, 604800⟩ 3 = some (-1) :=
  ⟨by decide, by decide⟩

/-! ### C3: the age-based delay formula -/

/-- C3 (amended): `compute_delay_based_on_age` returns the spec formula
`if S ≥ max_age then None else Some (max 0 (S − age))` on the domain where
the program neither panics nor wraps: every summed per-attempt delay and
the total within chrono's duration bounds, and `max_age` within them too.
Outside that domain the program aborts in `Duration::seconds` or the `i64`
sum wraps. -/
theorem compute_delay_based_on_age_eq_spec (c : QueueConfig) (n : ℕ) (age : ℤ)
    (hterms : ∀ i ∈ List.range' 1 (n - 1), nat_delay c i ≤ MAX_DURATION_SECS)
    (hsum : ((List.range' 1 (n - 1)).map (fun i => nat_delay c i)).sum ≤ MAX_DURATION_SECS)
    (hma : c.max_age ≤ MAX_DURATION_SECS) :
    compute_delay_based_on_age c n age = some (spec_compute_delay c n age) := by
  rw [compute_delay_eval c n age hterms hsum hma]
  congr 1
  unfold spec_compute_delay
  have hmapeq : (List.range' 1 (n - 1)).map (fun i => spec_min_delay c i) =
      (List.range' 1 (n - 1)).map (fun i => nat_delay c i) :=
    List.map_congr_left (fun i hi => spec_min_eq_nat_delay_of_le c i (hterms i hi))
  rw [hmapeq]
  by_cases h1 : ((((List.range' 1 (n - 1)).map (fun i => nat_delay c i)).sum : ℕ) : ℤ) ≥
      (c.max_age : ℤ)
  · rw [if_pos h1, if_pos h1]
  · rw [if_neg h1, if_neg h1]
    by_cases h2 : ((((List.range' 1 (n - 1)).map (fun i => nat_delay c i)).sum : ℕ) : ℤ) ≤ age
    · rw [if_pos h2]
      congr 1
      rw [max_eq_left (by linarith)]
    · rw [if_neg h2]
      congr 1
      rw [max_eq_right (by linarith)]

/-- C3 witness: with `retry_interval = 2`, no cap, `max_age = 1024`,
4 attempts and age 1, the program returns exactly the spec formula value. -/
theorem compute_delay_based_on_age_eq_spec_witness :
    (∀ i ∈ List.range' 1 (4 - 1), nat_delay ⟨2, none, 1024⟩ i ≤ MAX_DURATION_SECS) ∧
      ((List.range' 1 (4 - 1)).map (fun i => nat_delay ⟨2, none, 1024⟩ i)).sum ≤
        MAX_DURATION_SECS ∧
      compute_delay_based_on_age ⟨2, none, 1024⟩ 4 1 =
        some (spec_compute_delay ⟨2, none, 1024⟩ 4 1) :=
  ⟨by decide, by decide,
    compute_delay_based_on_age_eq_spec ⟨2, none, 1024⟩ 4 1 (by decide) (by decide) (by decide)⟩

/-- C3 counterexample: with `max_age = 2^64 − 1` the cast `max_age as i64`
wraps to `-1`, so the code expires immediately (returns `None`) although
the sum of delays (0) is far below `max_age` and the claim demands
`Some 0`. -/
theorem compute_delay_based_on_age_ne_spec :
    compute_delay_based_on_age ⟨1, none, 2 ^ 64 - 1⟩ 0 0 = some none ∧
      spec_compute_delay ⟨1, none, 2 ^ 64 - 1⟩ 0 0 = some 0 :=
  ⟨by decide, by decide⟩

/-! ### C4: schedule termination -/

/-- C6: the dispatcher's STARTTLS decision follows the policy table:
Required/RequiredInsecure without STARTTLS advertised fail the connection;
Disabled, or Opportunistic/OpportunisticInsecure without STARTTLS, proceed
without TLS; every remaining case issues STARTTLS, relaxing certificate
verification exactly for the `*Insecure` variants. -/
theorem tls_decision_table (t : Tls) (h : Bool) :
    tls_decision t h =
      (if (t = Tls.Required ∨ t = Tls.RequiredInsecure) ∧ h = false then
        TlsDecision.failConnection
      else if t = Tls.Disabled ∨ h = false then TlsDecision.noTls
      else TlsDecision.startTls t.allow_insecure) ∧
    (t.allow_insecure = true ↔ (t = Tls.OpportunisticInsecure ∨ t = Tls.RequiredInsecure)) := by
  cases t <;> cases h <;> exact ⟨rfl, by decide⟩

/-! ### C9: requeue_message behaviour -/

/-- C9 (amended): on the domain where the program does not panic — the
post-increment delay and the jitter stay within chrono's duration bounds
(`nat_delay(attempts+1) + 30 ≤ 9223372036854775`, jitter in `[-30, 29]`)
and `max_age` is within them too — `requeue_message` with
`increment = true` bumps the attempt counter, adds the jitter to
`delay_for_attempt` of the new count, expires the message (spool removal,
no re-insertion) exactly when `age + delay` exceeds the max age, and
otherwise delays by the computed amount and re-inserts; with
`increment = false` it never expires and always re-inserts after
`delay_with_jitter(60)`.  Outside that domain the program panics inside
`delay_for_attempt` or `Duration::seconds` before any expiry or removal. -/
theorem requeue_message_spec (c : QueueConfig) (msg : MsgState) (jitter : ℤ)
    (hj1 : -30 ≤ jitter) (hj2 : jitter ≤ 29)
    (hd : nat_delay c (msg.num_attempts + 1) + 30 ≤ MAX_DURATION_SECS)
    (hma : c.max_age ≤ MAX_DURATION_SECS) :
    (requeue_message c msg true jitter = some RequeueAction.expired ↔
      msg.age + ((nat_delay c (msg.num_attempts + 1) : ℤ) + jitter) > (c.max_age : ℤ)) ∧
    (¬ msg.age + ((nat_delay c (msg.num_attempts + 1) : ℤ) + jitter) > (c.max_age : ℤ) →
      requeue_message c msg true jitter =
        some (RequeueAction.delayed ((nat_delay c (msg.num_attempts + 1) : ℤ) + jitter))) ∧
    requeue_message c msg false jitter = some (RequeueAction.delayed_with_jitter 60) := by
  have hdel := delay_for_attempt_of_le c (msg.num_attempts + 1) (by omega)
  have hMc : ((MAX_DURATION_SECS : ℕ) : ℤ) = 9223372036854775 := by
    norm_num [MAX_DURATION_SECS]
  have hdc : ((nat_delay c (msg.num_attempts + 1) : ℕ) : ℤ) + 30 ≤ 9223372036854775 := by
    have := hd
    simp only [MAX_DURATION_SECS] at this
    exact_mod_cast this
  have hd0 : (0 : ℤ) ≤ ((nat_delay c (msg.num_attempts + 1) : ℕ) : ℤ) :=
    Int.natCast_nonneg _
  have hjit : duration_seconds ((nat_delay c (msg.num_attempts + 1) : ℤ) + jitter) =
      some ((nat_delay c (msg.num_attempts + 1) : ℤ) + jitter) := by
    apply duration_seconds_of_le
    · rw [hMc]
      linarith
    · rw [hMc]
      linarith
  have hga : get_max_age c = some ((c.max_age : ℕ) : ℤ) := by
    rw [get_max_age, toI64_of_lt (lt_of_le_of_lt hma (by norm_num [MAX_DURATION_SECS]))]
    exact duration_seconds_of_le
      (le_trans (by norm_num) (Int.natCast_nonneg _)) (by exact_mod_cast hma)
  have heval : requeue_message c msg true jitter =
      some (if (nat_delay c (msg.num_attempts + 1) : ℤ) + jitter + msg.age >
              (c.max_age : ℤ) then RequeueAction.expired
            else RequeueAction.delayed ((nat_delay c (msg.num_attempts + 1) : ℤ) + jitter)) := by
    simp only [requeue_message, hdel, hjit, hga]
    split_ifs <;> rfl
  refine ⟨?_, ?_, rfl⟩
  · rw [heval]
    by_cases hgt : (nat_delay c (msg.num_attempts + 1) : ℤ) + jitter + msg.age >
        (c.max_age : ℤ)
    · rw [if_pos hgt]
      constructor
      · intro _
        linarith
      · intro _
        rfl
    · rw [if_neg hgt]
      constructor
      · intro hcon
        exact absurd hcon (by simp)
      · intro hage
        exact absurd (by linarith : (nat_delay c (msg.num_attempts + 1) : ℤ) + jitter +
          msg.age > (c.max_age : ℤ)) hgt
  · intro hle
    rw [heval, if_neg (fun hcon => hle (by linarith))]

/-- C9 witness: with `retry_interval = 2`, no cap, `max_age = 1024`, a
fresh message and zero jitter: no expiry with `increment=false`, and with
`increment=true` the message is re-delayed by `delay_for_attempt(1) = 4`
seconds. -/
theorem requeue_message_spec_witness :
    requeue_message ⟨2, none, 1024⟩ ⟨0, 0⟩ false 0 =
        some (RequeueAction.delayed_with_jitter 60) ∧
      requeue_message ⟨2, none, 1024⟩ ⟨0, 0⟩ true 0 = some (RequeueAction.delayed 4) := by
  have h := requeue_message_spec ⟨2, none, 1024⟩ ⟨0, 0⟩ 0 (by decide) (by decide) (by decide)
    (by decide)
  refine ⟨h.2.2, ?_⟩
  rw [h.2.1 (by decide)]
  decide

/-- C9 counterexample: with `retry_interval = 10^6` and no cap, a message
on its first retry computes a delay of `10^18` seconds, which exceeds
chrono's duration bound, so the program panics inside `delay_for_attempt`
before any expiry check or spool removal — it neither expires nor
re-inserts, contradicting the claim for every config. -/
theorem requeue_message_panics :
    requeue_message ⟨1000000, none, 604800⟩ ⟨1, 0⟩ true 0 = none := by decide

/-! ### C5: name-factoring scenarios -/

set_option maxRecDepth 40000 in
/-- C5: `factor_names` produces the specified outputs on the Yahoo MX list,
normalizes mixed-case labels to lowercase, and renders the uneven-length
Gmail MX list with a `?` suffix on the padded position. -/
theorem factor_names_scenarios :
    factor_names ["mta5.am0.yahoodns.net", "mta6.am0.yahoodns.net", "mta7.am0.yahoodns.net"] =
      "(mta5|mta6|mta7).am0.yahoodns.net" ∧
    factor_names ["mta5.AM0.yahoodns.net", "mta6.am0.yAHOodns.net", "mta7.am0.yahoodns.net"] =
      "(mta5|mta6|mta7).am0.yahoodns.net" ∧
    factor_names ["gmail-smtp-in.l.google.com", "alt1.gmail-smtp-in.l.google.com",
        "alt2.gmail-smtp-in.l.google.com", "alt3.gmail-smtp-in.l.google.com",
        "alt4.gmail-smtp-in.l.google.com"] =
      "(alt1|alt2|alt3|alt4)?.gmail-smtp-in.l.google.com" := by
  refine ⟨by decide, by decide, by decide⟩

/-! ### Bounds on the exponential, for the connection-count curve -/

theorem exp_le_inv_one_sub {x : ℝ} (hx : x < 1) : Real.exp x ≤ (1 - x)⁻¹ := by
  have h1 : (0 : ℝ) < 1 - x := by linarith
  have h2 : (-x) + 1 ≤ Real.exp (-x) := Real.add_one_le_exp (-x)
  have h3 : Real.exp x * (1 - x) ≤ Real.exp x * Real.exp (-x) := by
    apply mul_le_mul_of_nonneg_left _ (Real.exp_pos x).le
    linarith
  rw [← Real.exp_add, add_neg_cancel, Real.exp_zero] at h3
  rw [inv_eq_one_div, le_div_iff₀ h1]
  linarith

theorem exp_nat_bounds (x : ℝ) (n : ℕ) (h0 : 0 ≤ x) (h1 : x < 1) :
    (1 + x) ^ n ≤ Real.exp (n * x) ∧ Real.exp (n * x) ≤ ((1 - x)⁻¹) ^ n := by
  rw [Real.exp_nat_mul]
  constructor
  · refine pow_le_pow_left₀ (by linarith) ?_ n
    have := Real.add_one_le_exp x
    linarith
  · exact pow_le_pow_left₀ (Real.exp_pos x).le (exp_le_inv_one_sub h1) n

theorem exp_neg_bounds (q : ℕ) (a b : ℝ) (ha : 0 < a)
    (hA : a < (1023 / 1000 : ℝ) ^ q) (hB : ((1000 / 977 : ℝ)) ^ q ≤ b) :
    b⁻¹ ≤ Real.exp (-1 * (q : ℝ) * 0.023) ∧ Real.exp (-1 * (q : ℝ) * 0.023) < a⁻¹ := by
  have hb := exp_nat_bounds (23 / 1000) q (by norm_num) (by norm_num)
  have e1 : ((1 : ℝ) + 23 / 1000) = 1023 / 1000 := by norm_num
  have e2 : ((1 - (23 / 1000 : ℝ))⁻¹) = 1000 / 977 := by norm_num
  rw [e1, e2] at hb
  have harg : (-1 : ℝ) * (q : ℝ) * 0.023 = -((q : ℝ) * (23 / 1000)) := by
    norm_num
  rw [harg, Real.exp_neg]
  have hlo : a < Real.exp ((q : ℝ) * (23 / 1000)) := lt_of_lt_of_le hA hb.1
  have hhi : Real.exp ((q : ℝ) * (23 / 1000)) ≤ b := le_trans hb.2 hB
  have hbpos : (0 : ℝ) < b := lt_of_lt_of_le (Real.exp_pos _) hhi
  constructor
  · exact inv_anti₀ (Real.exp_pos _) hhi
  · exact (inv_lt_inv₀ (Real.exp_pos _) ha).mpr hlo

theorem ideal_32_eq (q v : ℕ)
    (h1 : Real.exp (-1 * (q : ℝ) * 0.023) < (33 - (v : ℝ)) / 32)
    (h2 : (32 - (v : ℝ)) / 32 ≤ Real.exp (-1 * (q : ℝ) * 0.023)) :
    ideal_connection_count q 32 = v := by
  unfold ideal_connection_count
  have h32 : natToF32 32 = 32 := by decide
  rw [h32]
  have h3 : ⌈((32 : ℕ) : ℝ) * (1 - Real.exp (-1 * (q : ℝ) * 0.023))⌉ = (v : ℤ) := by
    rw [Int.ceil_eq_iff]
    constructor
    · push_cast
      nlinarith [h1]
    · push_cast
      nlinarith [h2]
  rw [h3, Int.toNat_natCast]

theorem natToF32_of_lt {n : ℕ} (h : n < 2 ^ 24) : natToF32 n = n := by
  unfold natToF32
  rw [if_pos h]

theorem ideal_connection_count_le_f32 (q L : ℕ) :
    ideal_connection_count q L ≤ natToF32 L := by
  unfold ideal_connection_count
  have he : 0 < Real.exp (-1 * (q : ℝ) * 0.023) := Real.exp_pos _
  have hL : (0 : ℝ) ≤ ((natToF32 L : ℕ) : ℝ) := Nat.cast_nonneg _
  have h1 : ((natToF32 L : ℕ) : ℝ) * (1 - Real.exp (-1 * (q : ℝ) * 0.023)) ≤
      ((natToF32 L : ℕ) : ℝ) := by nlinarith
  calc (⌈((natToF32 L : ℕ) : ℝ) * (1 - Real.exp (-1 * (q : ℝ) * 0.023))⌉).toNat
      ≤ (⌈((natToF32 L : ℕ) : ℝ)⌉).toNat := Int.toNat_le_toNat (Int.ceil_le_ceil h1)
    _ = natToF32 L := by rw [Int.ceil_natCast, Int.toNat_natCast]

theorem ideal_connection_count_mono (L q q' : ℕ) (hq : q ≤ q') :
    ideal_connection_count q L ≤ ideal_connection_count q' L := by
  unfold ideal_connection_count
  apply Int.toNat_le_toNat
  apply Int.ceil_le_ceil
  have hc : ((q : ℕ) : ℝ) ≤ ((q' : ℕ) : ℝ) := Nat.cast_le.mpr hq
  have hexp : Real.exp (-1 * (q' : ℝ) * 0.023) ≤ Real.exp (-1 * (q : ℝ) * 0.023) := by
    apply Real.exp_le_exp.mpr
    nlinarith
  have hL : (0 : ℝ) ≤ ((natToF32 L : ℕ) : ℝ) := Nat.cast_nonneg _
  nlinarith

theorem ideal_connection_count_zero (L : ℕ) : ideal_connection_count 0 L = 0 := by
  unfold ideal_connection_count
  have h0 : (-1 : ℝ) * ((0 : ℕ) : ℝ) * 0.023 = 0 := by norm_num
  rw [h0, Real.exp_zero]
  simp

/-! ### C7: shape of the connection curve and the site cap -/

/-- C7 (amended): `ideal_connection_count` is non-decreasing in the queue
size, vanishes on an empty queue, and is bounded by the `f32` rounding of
the connection limit (`natToF32 L`), which equals `L` itself whenever `L`
is exactly representable — in particular for every `L < 2^24`, covering
the default limit 32; hence a `maintain` step, which tops the pruned
live-worker count up to the ideal, never grows the worker set beyond
`natToF32 connection_limit`.  The bound by `L` itself is false of the
program for limits that round up in `f32`. -/
theorem ideal_connection_count_shape (L q q' alive : ℕ) (hq : q ≤ q')
    (ha : alive ≤ natToF32 L) :
    ideal_connection_count q L ≤ ideal_connection_count q' L ∧
    ideal_connection_count 0 L = 0 ∧
    ideal_connection_count q L ≤ natToF32 L ∧
    maintain_live_connections alive q L ≤ natToF32 L ∧
    (L < 2 ^ 24 → natToF32 L = L) :=
  ⟨ideal_connection_count_mono L q q' hq, ideal_connection_count_zero L,
    ideal_connection_count_le_f32 q L,
    max_le ha (ideal_connection_count_le_f32 q L),
    fun h => natToF32_of_lt h⟩

/-- C7 witness: at `L = 32` (exactly representable, `natToF32 32 = 32`)
the curve is monotone from queue size 1 to 2, zero at 0, bounded by 32,
and `maintain` with 5 live workers stays at or below 32. -/
theorem ideal_connection_count_shape_witness :
    ideal_connection_count 1 32 ≤ ideal_connection_count 2 32 ∧
    ideal_connection_count 0 32 = 0 ∧
    ideal_connection_count 1 32 ≤ natToF32 32 ∧
    maintain_live_connections 5 1 32 ≤ natToF32 32 ∧
    (32 < 2 ^ 24 → natToF32 32 = 32) :=
  ideal_connection_count_shape 32 1 2 5 (by norm_num) (by decide)

/-- C7 counterexample: the connection limit 16777219 = 2^24 + 3 is not
representable in `f32` and rounds up to 16777220; with a large backlog the
exponential term is far below one ulp, so the program returns an ideal of
16777220, exceeding `connection_limit` — the claimed bound by `L` (and the
derived `maintain` cap) is false of the source. -/
theorem ideal_connection_count_exceeds_limit :
    ideal_connection_count 1024 16777219 = 16777220 ∧
      16777219 < ideal_connection_count 1024 16777219 := by
  have hLf : natToF32 16777219 = 16777220 := by decide
  have hbig : (16777220 : ℝ) < (1023 / 1000 : ℝ) ^ 1024 := by
    have h128 : (16 : ℝ) ≤ (1023 / 1000 : ℝ) ^ 128 := by norm_num
    have h8 : (16 : ℝ) ^ 8 ≤ ((1023 / 1000 : ℝ) ^ 128) ^ 8 :=
      pow_le_pow_left₀ (by norm_num) h128 8
    have hpow : ((1023 / 1000 : ℝ) ^ 128) ^ 8 = (1023 / 1000 : ℝ) ^ 1024 := by
      rw [← pow_mul]
    rw [hpow] at h8
    nlinarith
  have h := exp_neg_bounds 1024 16777220 ((1000 / 977 : ℝ) ^ 1024) (by norm_num) hbig le_rfl
  have hcancel : (16777220 : ℝ) * (16777220 : ℝ)⁻¹ = 1 := by norm_num
  have hpos := Real.exp_pos (-1 * ((1024 : ℕ) : ℝ) * 0.023)
  have hval : ideal_connection_count 1024 16777219 = 16777220 := by
    unfold ideal_connection_count
    rw [hLf]
    have h3 : ⌈((16777220 : ℕ) : ℝ) *
        (1 - Real.exp (-1 * ((1024 : ℕ) : ℝ) * 0.023))⌉ = (16777220 : ℤ) := by
      rw [Int.ceil_eq_iff]
      constructor
      · push_cast
        linarith [h.2, hcancel]
      · push_cast
        nlinarith [hpos]
    rw [h3]
    rfl
  exact ⟨hval, by rw [hval]; norm_num⟩

theorem ideal_value_0 : ideal_connection_count 0 32 = 0 := ideal_connection_count_zero 32

theorem ideal_value_1 : ideal_connection_count 1 32 = 1 := by
  have h := exp_neg_bounds 1 1 (32 / 31) (by norm_num) (by norm_num) (by norm_num)
  refine ideal_32_eq 1 1 ?_ ?_
  · exact lt_of_lt_of_le h.2 (by norm_num)
  · exact le_trans (by norm_num) h.1

theorem ideal_value_2 : ideal_connection_count 2 32 = 2 := by
  have h := exp_neg_bounds 2 (32 / 31) (32 / 30) (by norm_num) (by norm_num) (by norm_num)
  refine ideal_32_eq 2 2 ?_ ?_
  · exact lt_of_lt_of_le h.2 (by norm_num)
  · exact le_trans (by norm_num) h.1

theorem ideal_value_3 : ideal_connection_count 3 32 = 3 := by
  have h := exp_neg_bounds 3 (32 / 30) (32 / 29) (by norm_num) (by norm_num) (by norm_num)
  refine ideal_32_eq 3 3 ?_ ?_
  · exact lt_of_lt_of_le h.2 (by norm_num)
  · exact le_trans (by norm_num) h.1

theorem ideal_value_4 : ideal_connection_count 4 32 = 3 := by
  have h := exp_neg_bounds 4 (32 / 30) (32 / 29) (by norm_num) (by norm_num) (by norm_num)
  refine ideal_32_eq 4 3 ?_ ?_
  · exact lt_of_lt_of_le h.2 (by norm_num)
  · exact le_trans (by norm_num) h.1

theorem ideal_value_10 : ideal_connection_count 10 32 = 7 := by
  have h := exp_neg_bounds 10 (16 / 13) (32 / 25) (by norm_num) (by norm_num) (by norm_num)
  refine ideal_32_eq 10 7 ?_ ?_
  · exact lt_of_lt_of_le h.2 (by norm_num)
  · exact le_trans (by norm_num) h.1

theorem ideal_value_32 : ideal_connection_count 32 32 = 17 := by
  have h := exp_neg_bounds 32 2 (32 / 15) (by norm_num) (by norm_num) (by norm_num)
  refine ideal_32_eq 32 17 ?_ ?_
  · exact lt_of_lt_of_le h.2 (by norm_num)
  · exact le_trans (by norm_num) h.1

theorem ideal_value_128 : ideal_connection_count 128 32 = 31 := by
  have h := exp_neg_bounds 128 16 32 (by norm_num) (by norm_num) (by norm_num)
  refine ideal_32_eq 128 31 ?_ ?_
  · exact lt_of_lt_of_le h.2 (by norm_num)
  · exact le_trans (by norm_num) h.1

theorem ideal_value_1024 : ideal_connection_count 1024 32 = 32 := by
  have hbig : (32 : ℝ) < (1023 / 1000 : ℝ) ^ 1024 := by
    have h128 : (16 : ℝ) ≤ (1023 / 1000 : ℝ) ^ 128 := by norm_num
    have h8 : (16 : ℝ) ^ 8 ≤ ((1023 / 1000 : ℝ) ^ 128) ^ 8 :=
      pow_le_pow_left₀ (by norm_num) h128 8
    have hpow : ((1023 / 1000 : ℝ) ^ 128) ^ 8 = (1023 / 1000 : ℝ) ^ 1024 := by
      rw [← pow_mul]
    rw [hpow] at h8
    nlinarith
  have h := exp_neg_bounds 1024 32 ((1000 / 977 : ℝ) ^ 1024) (by norm_num) hbig le_rfl
  refine ideal_32_eq 1024 32 ?_ ?_
  · exact lt_of_lt_of_le h.2 (by norm_num)
  · have hp := Real.exp_pos (-1 * ((1024 : ℕ) : ℝ) * 0.023)
    push_cast
    nlinarith

/-! ### C8: concrete values of the connection curve -/

/-- C8: at connection limit 32 the curve
`ceil(32 * (1 - e^(-0.023 q)))` takes exactly the specified values. -/
theorem ideal_connection_count_values :
    ideal_connection_count 0 32 = 0 ∧ ideal_connection_count 1 32 = 1 ∧
    ideal_connection_count 2 32 = 2 ∧ ideal_connection_count 3 32 = 3 ∧
    ideal_connection_count 4 32 = 3 ∧ ideal_connection_count 10 32 = 7 ∧
    ideal_connection_count 32 32 = 17 ∧ ideal_connection_count 128 32 = 31 ∧
    ideal_connection_count 1024 32 = 32 :=
  ⟨ideal_value_0, ideal_value_1, ideal_value_2, ideal_value_3, ideal_value_4,
    ideal_value_10, ideal_value_32, ideal_value_128, ideal_value_1024⟩

/-! ### Round-trip lemmas for factor_names on a single hostname -/

theorem splitOnChar_ne_nil (c : Char) (l : List Char) : splitOnChar c l ≠ [] := by
  cases l with
  | nil => simp [splitOnChar]
  | cons x xs =>
    simp only [splitOnChar]
    split <;> simp

theorem joinSep_splitOnChar (c : Char) (l : List Char) :
    joinSep c (splitOnChar c l) = l := by
  induction l with
  | nil => rfl
  | cons x xs ih =>
    simp only [splitOnChar]
    cases hs : splitOnChar c xs with
    | nil => exact absurd hs (splitOnChar_ne_nil c xs)
    | cons y ys =>
      rw [hs] at ih
      by_cases hx : x = c
      · rw [if_pos hx]
        subst hx
        simp [joinSep, ih]
      · rw [if_neg hx]
        simp only [List.headD_cons, List.tail_cons]
        cases ys with
        | nil =>
          simp only [joinSep] at ih ⊢
          rw [ih]
        | cons z zs =>
          simp only [joinSep] at ih ⊢
          rw [List.cons_append, ih]

theorem joinSep_map_map (c : Char) (f : Char → Char) (hc : f c = c)
    (xs : List (List Char)) :
    joinSep c (xs.map (List.map f)) = (joinSep c xs).map f := by
  induction xs with
  | nil => rfl
  | cons x xs ih =>
    cases xs with
    | nil => rfl
    | cons y ys =>
      simp only [List.map_cons, joinSep] at ih ⊢
      rw [ih, List.map_append, List.map_cons, hc]

theorem add_fields_from_length (fields : List (List Char)) :
    ∀ els : List (List (List Char)),
      add_fields els fields els.length = els ++ fields.map (fun f => [f]) := by
  induction fields with
  | nil =>
    intro els
    simp [add_fields]
  | cons f rest ih =>
    intro els
    rw [add_fields]
    have h1 : add_element els f els.length = els ++ [[f]] := by
      unfold add_element
      rw [List.get?_eq_none.mpr le_rfl]
    rw [h1]
    have h2 : els.length + 1 = (els ++ [[f]]).length := by simp
    rw [h2, ih (els ++ [[f]])]
    simp

theorem render_element_singleton (f : List Char) (hf : f ≠ qmark) :
    render_element [f] = f := by
  unfold render_element
  have hfilter : [f].filter (fun e => decide (e ≠ qmark)) = [f] := by
    simp [List.filter, hf]
  rw [hfilter]
  have hmem : qmark ∉ [f] := by
    intro hmemc
    exact hf (List.mem_singleton.mp hmemc).symm
  simp only
  rw [if_neg hmem]

/-! ### C10: factor_names on a single hostname -/

/-- C10 (amended): on a single-element input list whose dot-separated
labels are never the literal `"?"` after lowercasing, `factor_names`
returns the hostname lowercased with its structure unchanged: every
position holds exactly one distinct label, so no alternation parentheses
and no `?` suffix are emitted, and an already-lowercase hostname maps to
itself. -/
theorem factor_names_single (h : String)
    (hq : ∀ f ∈ splitOnChar '.' h.data, f.map Char.toLower ≠ qmark) :
    factor_names [h] = strLower h := by
  unfold factor_names strLower
  simp only [List.map_cons, List.map_nil, List.foldl_cons, List.foldl_nil]
  rw [max_eq_right (Nat.zero_le _)]
  have hpad : ∀ E : List (List (List Char)), ∀ L : ℕ, pad_elements E L L = E := by
    intro E L
    unfold pad_elements
    rw [Nat.sub_self]
    rfl
  rw [hpad]
  have hadd := add_fields_from_length
    (((splitOnChar '.' h.data).map (fun f => f.map Char.toLower)).reverse) []
  simp only [List.length_nil, List.nil_append] at hadd
  rw [hadd, List.map_map]
  have hsingle : ∀ f ∈ ((splitOnChar '.' h.data).map (fun f => f.map Char.toLower)).reverse,
      (render_element ∘ fun f => [f]) f = id f := by
    intro f hf
    rw [List.mem_reverse] at hf
    obtain ⟨g, hg, rfl⟩ := List.mem_map.mp hf
    exact render_element_singleton _ (hq g hg)
  rw [List.map_congr_left hsingle, List.map_id, List.reverse_reverse,
    joinSep_map_map '.' Char.toLower (by decide), joinSep_splitOnChar]

/-- C10 witness: `factor_names` lowercases the single hostname
`"Mta1.Example.COM"` and returns it otherwise unchanged. -/
theorem factor_names_single_witness :
    (∀ f ∈ splitOnChar '.' (String.data "Mta1.Example.COM"), f.map Char.toLower ≠ qmark) ∧
      factor_names ["Mta1.Example.COM"] = strLower "Mta1.Example.COM" :=
  ⟨by decide, factor_names_single "Mta1.Example.COM" (by decide)⟩

/-- C10 counterexample: on the single-element list `["?"]` the sole label
collides with the padding marker: `factor_names` removes it as padding,
renders the now-empty position as `()` and suffixes `?`, producing `"()?"`
instead of the lowercased input `"?"` — so `factor_names` is not the
identity on every single-element lowercase input. -/
theorem factor_names_single_cex :
    factor_names ["?"] = "()?" ∧ factor_names ["?"] ≠ strLower "?" :=
  ⟨by decide, by decide⟩
